import Mathlib

/-!
Verification of the server reward system (gacha draws, pity counters,
composite reward expansion, inventory simulation and commit).

The definitions below are a shallow embedding of the C++ sources
`ServerRewardSystem_Gacha.cpp` and `ServerRewardSystem_Inventory.cpp`.
Machine integers are modelled as `Int` (no overflow is relevant at the
value ranges involved), engine randomness is passed in explicitly as
data (an index for uniform picks, a draw value for weighted rolls), and
external collaborators (data tables, the inventory store, the SQL task
queue) are explicit parameters or accumulated lists.
-/

/-- Reward kinds, mirroring the `EReward` enum as used by the sources. -/
inductive EReward where
  | none
  | item
  | currency
  | playerCharacter
  | rewardData
deriving DecidableEq, Repr

/-- Acquisition source tag carried by a reward handler
(`ERewardSource`); the simulator only distinguishes `none` from the
rest. -/
inductive ERewardSource where
  | none
  | gacha
deriving DecidableEq, Repr

/-- The struct `FRewardHandler`: a reward grant (type tag, row name, signed
amount, acquisition source).  Row names (`FName`) are modelled as
naturals. -/
structure FRewardHandler where
  rewardType : EReward
  typeRowName : Nat
  amount : Int
  acquireSource : ERewardSource
deriving DecidableEq, Repr

/-- The sentinel handler `FRewardHandler(EReward::None, NAME_None, 0)`
returned by the gacha helpers on failure. -/
def noneHandler : FRewardHandler :=
  ⟨EReward.none, 0, 0, ERewardSource.none⟩

/-- One entry of `URewardData::GachaRandoms`
(`URewardGachaRandomData`): weight, pickup group and the reward it
grants. -/
structure GachaEntry where
  weight : Int
  pickupGroup : Int
  reward : FRewardHandler
deriving DecidableEq, Repr

/-- One entry of `URewardData::Randoms` (`URewardRandomData`). -/
structure RewardRandomEntry where
  weight : Int
  reward : FRewardHandler
deriving DecidableEq, Repr

/-- The table row `URewardData`: gacha entries with their total weight, plus the
static / random parts used by `BuildRewardData`. -/
structure RewardData where
  gachaRandoms : List GachaEntry
  totalGachaWeight : Int
  statics : List FRewardHandler
  randoms : List RewardRandomEntry
  totalWeight : Int
deriving DecidableEq, Repr

/-- The row `FGachaCampaignData`: the pity policy of a pool. -/
structure CampaignData where
  normalPickupGroup : Int
  specialPickupGroup : Int
  specialTryCount : Int
deriving DecidableEq, Repr

/-- The pity counters (`NormalPickupCounter`, `SpecialPickupCounter`).
The code only ever loads, increments and zeroes them, so they are kept
as naturals. -/
structure PityState where
  normal : Nat
  special : Nat
deriving DecidableEq, Repr

/-- Randomness consumed by one draw: `pickIdx` feeds
`FMath::RandRange(0, Num-1)` (reduced modulo the candidate count) and
`rollValue` is the value drawn by `FMath::RandRange(1, TotalGachaWeight)`. -/
structure RandInput where
  pickIdx : Nat
  rollValue : Int
deriving DecidableEq, Repr

/-- Which branch of the per-draw logic produced the result. -/
inductive DrawKind where
  | specialPity
  | normalPity
  | organic
deriving DecidableEq, Repr

/-- Result of one draw: the branch taken and the selected entry
(`none` when the code produced the `None` sentinel reward). -/
structure DrawResult where
  kind : DrawKind
  sel : Option GachaEntry
deriving DecidableEq, Repr

/-- The handler actually emplaced into the result list for a draw. -/
def grantedHandler (r : DrawResult) : FRewardHandler :=
  (r.sel.map (fun e => e.reward)).getD noneHandler

/-- The candidate subset collected by `AddPickupReward`: all entries
with `PickupGroup >= InPickupGroup`. -/
def pickupSubset (entries : List GachaEntry) (g : Int) : List GachaEntry :=
  entries.filter (fun e => g ≤ e.pickupGroup)

/-- The helper `AddPickupReward`: filter the entries by pickup group, then select
one uniformly (the random index is modelled as `idx % size`); returns
`none` exactly when the code returns the `None` sentinel because the
filtered set is empty. -/
def addPickupReward (rd : RewardData) (g : Int) (idx : Nat) : Option GachaEntry :=
  let subset := pickupSubset rd.gachaRandoms g
  subset.get? (idx % subset.length)

/-- Cumulative-weight walk of `RollRandomReward`: `acc` is
`CurrentWeight`, `rn` the drawn value; the first entry whose cumulative
weight reaches `rn` wins. -/
def rollAux : List GachaEntry → Int → Int → Option GachaEntry
  | [], _, _ => none
  | e :: rest, acc, rn =>
    if rn ≤ acc + e.weight then some e else rollAux rest (acc + e.weight) rn

/-- The helper `RollRandomReward` with the drawn value passed in explicitly;
`none` models the fall-through `None` sentinel return. -/
def rollRandomReward (entries : List GachaEntry) (rn : Int) : Option GachaEntry :=
  rollAux entries 0 rn

/-- Sum of the entry weights of a pool (the `W` of the spec). -/
def sumWeights (entries : List GachaEntry) : Int :=
  (entries.map (fun e => e.weight)).sum

/-- One iteration of the per-draw loop of
`UServerRewardSystem::OnPostGive_Gacha` (lines 159-201): increment both
counters, check special pity, else normal pity, else roll and apply the
organic counter resets. -/
def drawStep (cfg : CampaignData) (rd : RewardData) (st : PityState) (r : RandInput) :
    PityState × DrawResult :=
  let n := st.normal + 1
  let s := st.special + 1
  if 0 < cfg.specialPickupGroup ∧ cfg.specialTryCount ≤ (s : Int) then
    (⟨0, 0⟩, ⟨DrawKind.specialPity, addPickupReward rd cfg.specialPickupGroup r.pickIdx⟩)
  else if 0 < cfg.normalPickupGroup ∧ 10 ≤ (n : Int) then
    (⟨0, s⟩, ⟨DrawKind.normalPity, addPickupReward rd cfg.normalPickupGroup r.pickIdx⟩)
  else
    let o := rollRandomReward rd.gachaRandoms r.rollValue
    let g := (o.map (fun e => e.pickupGroup)).getD 0
    if cfg.specialPickupGroup ≤ g then (⟨0, 0⟩, ⟨DrawKind.organic, o⟩)
    else if cfg.normalPickupGroup ≤ g then (⟨0, s⟩, ⟨DrawKind.organic, o⟩)
    else (⟨n, s⟩, ⟨DrawKind.organic, o⟩)

/-- The multi-draw loop: runs `drawStep` over a list of random inputs,
returning the final counters and the per-draw results in order. -/
def runDraws (cfg : CampaignData) (rd : RewardData) :
    PityState → List RandInput → PityState × List DrawResult
  | st, [] => (st, [])
  | st, r :: rs =>
    let p := drawStep cfg rd st r
    let q := runDraws cfg rd p.1 rs
    (q.1, p.2 :: q.2)

/-- Whether a draw granted an entry of pickup group at least `g`. -/
def hitGE (g : Int) (o : DrawResult) : Bool :=
  match o.sel with
  | some e => decide (g ≤ e.pickupGroup)
  | none => false

/-- The row `FItemBaseData`: the stacking / capacity metadata the simulator
reads from the item table. -/
structure ItemBaseData where
  nonStackable : Bool
  requiresSlot : Bool
  maxStackAmount : Int
deriving DecidableEq, Repr

/-- An element of the `InUpdatedItem` parameter of `SimulateRewards`:
a pending per-item delta carrying its (possibly missing) item metadata
and a signed amount. -/
structure NetItemDelta where
  itemData : Option ItemBaseData
  amount : Int
deriving DecidableEq, Repr

/-- The external state read by `SimulateRewards`: the item table, the
current slot count and capacity, the per-item on-record amounts and
the external per-reward admissibility check `URewardManager::Simulate`. -/
structure SimEnv where
  itemTable : Nat → Option ItemBaseData
  slotCount : Int
  maxCapacity : Int
  userAmount : Nat → Int
  simulateOk : FRewardHandler → Bool

/-- The map update `TMap::FindOrAdd` followed by `+=`: update the entry for `k` in
place, or append a fresh one (insertion order is preserved). -/
def addCount : List (Nat × Int) → Nat → Int → List (Nat × Int)
  | [], k, v => [(k, v)]
  | (k0, v0) :: rest, k, v =>
    if k0 = k then (k0, v0 + v) :: rest else (k0, v0) :: addCount rest k v

/-- The classification loop of `SimulateRewards` (step 1, lines
45-72): walks the rewards in order; non-item or unknown-item handlers
stay in the list, non-stackable items move to `NonStackablePass`,
stackable items accumulate into `StackableCounts`. -/
def classifyLoop (tbl : Nat → Option ItemBaseData) :
    List FRewardHandler → List FRewardHandler → List FRewardHandler →
    List (Nat × Int) → List FRewardHandler × List FRewardHandler × List (Nat × Int)
  | [], rem, pass, counts => (rem, pass, counts)
  | h :: rest, rem, pass, counts =>
    if h.rewardType ≠ EReward.item then
      classifyLoop tbl rest (rem ++ [h]) pass counts
    else
      match tbl h.typeRowName with
      | none => classifyLoop tbl rest (rem ++ [h]) pass counts
      | some d =>
        if d.nonStackable then classifyLoop tbl rest rem (pass ++ [h]) counts
        else classifyLoop tbl rest rem pass (addCount counts h.typeRowName h.amount)

/-- The pending-delta loop of `SimulateRewards` (step 4, lines
90-118): non-stackable deltas move the slot count by their signed
amount, stackable deltas move it by plus one when the amount is
positive and minus one otherwise. -/
def pendingSlotDelta : List NetItemDelta → Int → Int
  | [], s => s
  | it :: rest, s =>
    match it.itemData with
    | none => pendingSlotDelta rest s
    | some d =>
      if ¬ d.requiresSlot then pendingSlotDelta rest s
      else if d.nonStackable then
        pendingSlotDelta rest
          (if 0 < it.amount then s + it.amount
           else if it.amount < 0 then s - |it.amount| else s)
      else pendingSlotDelta rest (s + (if 0 < it.amount then 1 else -1))

/-- The working-batch walk of `SimulateRewards` (steps 5-6, lines
123-196): the admissibility check always runs; slot accounting runs
only for slot-occupying item grants with source `None`, evaluating
each grant against the on-record amount; the capacity check fires the
moment the running total exceeds the maximum. -/
def simulateLoop (env : SimEnv) (bCheck : Bool) : List FRewardHandler → Int → Bool
  | [], _ => true
  | h :: rest, slot =>
    if ¬ env.simulateOk h then false
    else if ¬ bCheck then simulateLoop env bCheck rest slot
    else if h.rewardType ≠ EReward.item ∨ h.acquireSource ≠ ERewardSource.none then
      simulateLoop env bCheck rest slot
    else
      match env.itemTable h.typeRowName with
      | none => simulateLoop env bCheck rest slot
      | some d =>
        if ¬ d.requiresSlot then simulateLoop env bCheck rest slot
        else
          let ua := env.userAmount h.typeRowName
          let slot2 :=
            if d.nonStackable then
              if 0 < h.amount then slot + h.amount
              else if h.amount < 0 then slot - min ua (-h.amount)
              else slot
            else
              if 0 < h.amount then (if ua = 0 then slot + 1 else slot)
              else if h.amount < 0 then (if ua + h.amount ≤ 0 then slot - 1 else slot)
              else slot
          if env.maxCapacity < slot2 then false
          else simulateLoop env bCheck rest slot2

/-- The method `UServerRewardSystem::SimulateRewards`: returns the accept/reject
decision together with the adjusted (merged and recombined) batch that
the in-out `InRewards` parameter holds afterwards. -/
def simulateRewards (env : SimEnv) (inRewards : List FRewardHandler)
    (updated : List NetItemDelta) (bCheck : Bool) : Bool × List FRewardHandler :=
  let defaultSource :=
    match inRewards with
    | [] => ERewardSource.none
    | h :: _ => h.acquireSource
  let c := classifyLoop env.itemTable inRewards [] [] []
  let merged := (c.2.2.filter (fun p => p.2 ≠ 0)).map
    (fun p => FRewardHandler.mk EReward.item p.1 p.2 defaultSource)
  let working := c.1 ++ merged ++ c.2.1
  let slot0 := pendingSlotDelta updated env.slotCount
  (simulateLoop env bCheck working slot0, working)

/-- Lookup in a merged-count association list (0 when absent). -/
def lookupCount : List (Nat × Int) → Nat → Int
  | [], _ => 0
  | (k0, v) :: rest, k => if k0 = k then v else lookupCount rest k

/-- The net amount the batch grants to stackable item `k`: the sum of
the signed amounts of the item-typed grants whose row is `k` and whose
metadata says stackable. -/
def stackableSum (tbl : Nat → Option ItemBaseData) (k : Nat) : List FRewardHandler → Int
  | [] => 0
  | h :: rest =>
    (match tbl h.typeRowName with
     | some d =>
       if h.rewardType = EReward.item ∧ h.typeRowName = k ∧ d.nonStackable = false then
         h.amount
       else 0
     | none => 0) + stackableSum tbl k rest

/-- The slot contribution of one pending delta as the code computes it
(step 4): signed amount for non-stackable deltas, an unconditional
plus or minus one for stackable ones. -/
def pendingContribution (d : NetItemDelta) : Int :=
  match d.itemData with
  | none => 0
  | some dd =>
    if ¬ dd.requiresSlot then 0
    else if dd.nonStackable then
      (if 0 < d.amount then d.amount else if d.amount < 0 then -|d.amount| else 0)
    else (if 0 < d.amount then 1 else -1)

/-- The persistence queries enqueued on the `FSqliteQueryTask` by the
commit path. -/
inductive SqlQuery where
  | updateItemAmount (amount uid : Int)
  | deleteItem (uid : Int)
  | deleteInventory (uid : Int)
  | deleteEquipment (uid : Int)
deriving DecidableEq, Repr

/-- The fields of `UNetItem` that the commit path reads and writes. -/
structure NetItem where
  itemID : Nat
  itemUID : Int
  amount : Int
deriving DecidableEq, Repr

/-- The clamp `FMath::Clamp(v, lo, hi)`, written as the source evaluates it. -/
def clampInt (v lo hi : Int) : Int :=
  if v < lo then lo else if hi < v then hi else v

/-- The method `UServerRewardSystem::OnUpdateItemAmount` (lines 266-280): clamp
the new amount into `[0, MaxStackAmount]`, then enqueue either a row
update (positive amount) or a row delete (amount clamped to zero).
Returns `none` when the item row is missing from the item table (the
code would dereference a null pointer there). -/
def onUpdateItemAmount (tbl : Nat → Option ItemBaseData) (item : NetItem)
    (upd : Int) : Option (NetItem × List SqlQuery) :=
  match tbl item.itemID with
  | none => none
  | some d =>
    let newAmount := clampInt (item.amount + upd) 0 d.maxStackAmount
    let item2 : NetItem := ⟨item.itemID, item.itemUID, newAmount⟩
    if 0 < newAmount then
      some (item2, [SqlQuery.updateItemAmount newAmount item.itemUID])
    else
      some (item2, [SqlQuery.deleteItem item.itemUID])

/-- The method `UServerRewardSystem::RemoveInventoryItem` (lines 240-261): reject
null items, negative removal amounts and removals exceeding the held
amount with `false` and no queries; otherwise update the amount and,
when the item is fully depleted, delete the inventory row and (when the
item is equipped) the equip-state row.  The `equipped` parameter models
`UUserData_Equipment::GetEquipmentBy(ItemID) != nullptr`. -/
def removeInventoryItem (tbl : Nat → Option ItemBaseData) (equipped : Nat → Bool)
    (itemOpt : Option NetItem) (rm : Int) :
    Option (Bool × Option NetItem × List SqlQuery) :=
  match itemOpt with
  | none => some (false, none, [])
  | some it =>
    if rm < 0 ∨ it.amount - rm < 0 then some (false, some it, [])
    else
      match onUpdateItemAmount tbl it (rm * (-1)) with
      | none => none
      | some (it2, qs) =>
        if it2.amount ≤ 0 then
          some (true, some it2,
            qs ++ [SqlQuery.deleteInventory it2.itemUID] ++
              (if equipped it2.itemID then [SqlQuery.deleteEquipment it2.itemUID] else []))
        else some (true, some it2, qs)

/-- Cumulative-weight walk over `URewardData::Randoms`, as in
`BuildRewardData` lines 265-275. -/
def selectRandomAux : List RewardRandomEntry → Int → Int → Option FRewardHandler
  | [], _, _ => none
  | e :: rest, acc, rn =>
    if rn ≤ acc + e.weight then some e.reward else selectRandomAux rest (acc + e.weight) rn

mutual

/-- The method `UServerRewardSystem::BuildRewardData` (lines 224-279) under an
explicit recursion budget.  The function is recursive through the
reward table `tbl` with no cycle guard in the source, so the embedding
spends one unit of `fuel` on every call and returns `none` when the
budget is exhausted: a run of the C++ code terminates if and only if
some finite fuel makes the embedding return `some`.  `rng k` is the
value drawn by `FMath::RandRange(1, TotalWeight)` for the `k`-th random
selection, and `acc` is the in-out `InRewardHandlers` array. -/
def buildFuel (tbl : Nat → Option RewardData) :
    Nat → Option RewardData → (Nat → Int) → Nat → List FRewardHandler →
    Option (List FRewardHandler × Nat)
  | 0, _, _, _, _ => none
  | _ + 1, none, _, k, acc => some (acc, k)
  | f + 1, some rd, rng, k, acc =>
    match staticsFuel tbl f rd.statics rng k acc with
    | none => none
    | some (acc1, k1) =>
      if rd.randoms = [] then some (acc1, k1)
      else
        match selectRandomAux rd.randoms 0 (rng k1) with
        | none => some (acc1, k1 + 1)
        | some h => addRewardFuel tbl f h rng (k1 + 1) acc1

/-- The loop over `InRewardData->Statics` feeding each handler to the
`AddReward` lambda. -/
def staticsFuel (tbl : Nat → Option RewardData) :
    Nat → List FRewardHandler → (Nat → Int) → Nat → List FRewardHandler →
    Option (List FRewardHandler × Nat)
  | 0, _, _, _, _ => none
  | _ + 1, [], _, k, acc => some (acc, k)
  | f + 1, h :: rest, rng, k, acc =>
    match addRewardFuel tbl f h rng k acc with
    | none => none
    | some (acc1, k1) => staticsFuel tbl f rest rng k1 acc1

/-- The `AddReward` lambda: a `RewardData`-typed handler is resolved
through the table and expanded `Amount` times, anything else is
emplaced directly. -/
def addRewardFuel (tbl : Nat → Option RewardData) :
    Nat → FRewardHandler → (Nat → Int) → Nat → List FRewardHandler →
    Option (List FRewardHandler × Nat)
  | 0, _, _, _, _ => none
  | f + 1, h, rng, k, acc =>
    if h.rewardType = EReward.rewardData then
      repeatFuel tbl f (tbl h.typeRowName) h.amount.toNat rng k acc
    else some (acc ++ [h], k)

/-- The `for (i = 0; i < Handler.Amount; ++i)` loop around the
recursive `BuildRewardData` call. -/
def repeatFuel (tbl : Nat → Option RewardData) :
    Nat → Option RewardData → Nat → (Nat → Int) → Nat → List FRewardHandler →
    Option (List FRewardHandler × Nat)
  | 0, _, _, _, _, _ => none
  | _ + 1, _, 0, _, k, acc => some (acc, k)
  | f + 1, rd, n + 1, rng, k, acc =>
    match buildFuel tbl f rd rng k acc with
    | none => none
    | some (acc1, k1) => repeatFuel tbl f rd n rng k1 acc1

end

/-- A reward-table row that is a composite whose static list references
the row itself (key 1) once: the cyclic definition `A -> A`. -/
def cyclicDefn : RewardData :=
  ⟨[], 0, [⟨EReward.rewardData, 1, 1, ERewardSource.none⟩], [], 0⟩

/-- A reward table holding only the cyclic row above under key 1. -/
def cyclicTable : Nat → Option RewardData :=
  fun n => if n = 1 then some cyclicDefn else none

theorem sumWeights_nonneg (entries : List GachaEntry)
    (hpos : ∀ e ∈ entries, 0 < e.weight) : 0 ≤ sumWeights entries := by
  induction entries with
  | nil => simp [sumWeights]
  | cons e rest ih =>
    have h1 : 0 < e.weight := hpos e (List.mem_cons_self e rest)
    have h2 : 0 ≤ sumWeights rest := ih (fun x hx => hpos x (List.mem_cons_of_mem e hx))
    simp only [sumWeights, List.map_cons, List.sum_cons] at h2 ⊢
    omega

theorem sumWeights_pos (entries : List GachaEntry) (hne : entries ≠ [])
    (hpos : ∀ e ∈ entries, 0 < e.weight) : 0 < sumWeights entries := by
  cases entries with
  | nil => exact absurd rfl hne
  | cons e rest =>
    have h1 : 0 < e.weight := hpos e (List.mem_cons_self e rest)
    have h2 : 0 ≤ sumWeights rest :=
      sumWeights_nonneg rest (fun x hx => hpos x (List.mem_cons_of_mem e hx))
    simp only [sumWeights, List.map_cons, List.sum_cons] at h2 ⊢
    omega

theorem rollAux_last (entries : List GachaEntry) (hne : entries ≠ [])
    (hpos : ∀ e ∈ entries, 0 < e.weight) (acc : Int) :
    rollAux entries acc (acc + sumWeights entries) = entries.getLast? := by
  induction entries generalizing acc with
  | nil => exact absurd rfl hne
  | cons e rest ih =>
    cases rest with
    | nil =>
      simp [rollAux, sumWeights]
    | cons e2 rest2 =>
      have hpos2 : ∀ x ∈ e2 :: rest2, 0 < x.weight :=
        fun x hx => hpos x (List.mem_cons_of_mem e hx)
      have hsum : 0 < sumWeights (e2 :: rest2) :=
        sumWeights_pos _ (by simp) hpos2
      have hsw : sumWeights (e :: e2 :: rest2) = e.weight + sumWeights (e2 :: rest2) := by
        simp [sumWeights]
      have hcond : ¬ (acc + sumWeights (e :: e2 :: rest2) ≤ acc + e.weight) := by
        omega
      rw [show rollAux (e :: e2 :: rest2) acc (acc + sumWeights (e :: e2 :: rest2)) =
        rollAux (e2 :: rest2) (acc + e.weight) (acc + sumWeights (e :: e2 :: rest2))
        from by simp [rollAux, hcond]]
      have harg : acc + sumWeights (e :: e2 :: rest2) =
          (acc + e.weight) + sumWeights (e2 :: rest2) := by omega
      rw [harg, ih (by simp) hpos2 (acc + e.weight), List.getLast?_cons_cons]

theorem rollRandomReward_one (entries : List GachaEntry) (hne : entries ≠ [])
    (hpos : ∀ e ∈ entries, 0 < e.weight) :
    rollRandomReward entries 1 = entries.head? := by
  cases entries with
  | nil => exact absurd rfl hne
  | cons e rest =>
    have h1 : 0 < e.weight := hpos e (List.mem_cons_self e rest)
    have hcond : (1 : Int) ≤ 0 + e.weight := by omega
    simp only [rollRandomReward, rollAux, List.head?_cons]
    rw [if_pos hcond]

/-- The end-to-end example pool of the spec: A with weight 70, B with
weight 25, C with weight 5 (pickup groups 0, 1, 2). -/
def entryA : GachaEntry := ⟨70, 0, ⟨EReward.item, 11, 1, ERewardSource.none⟩⟩

/-- Entry B of the example pool. -/
def entryB : GachaEntry := ⟨25, 1, ⟨EReward.item, 12, 1, ERewardSource.none⟩⟩

/-- Entry C of the example pool. -/
def entryC : GachaEntry := ⟨5, 2, ⟨EReward.item, 13, 1, ERewardSource.none⟩⟩

/-- The example pool in table order. -/
def poolABC : List GachaEntry := [entryA, entryB, entryC]

/-- C4: for a pool of positively weighted entries with total weight
`W`, a weighted roll with draw value `W` selects the last entry and a
draw value of `1` selects the first entry (which is the first entry of
nonzero weight, all weights being positive); concretely on the pool
`{A: 70, B: 25, C: 5}` the total weight is 100, draw 80 selects B,
draw 100 selects C and draw 1 selects A. -/
theorem C4_theorem (entries : List GachaEntry) (hne : entries ≠ [])
    (hpos : ∀ e ∈ entries, 0 < e.weight) :
    rollRandomReward entries (sumWeights entries) = entries.getLast? ∧
    rollRandomReward entries 1 = entries.head? ∧
    sumWeights poolABC = 100 ∧
    rollRandomReward poolABC 80 = some entryB ∧
    rollRandomReward poolABC 100 = some entryC ∧
    rollRandomReward poolABC 1 = some entryA := by
  refine ⟨?_, rollRandomReward_one entries hne hpos, by decide, by decide, by decide, by decide⟩
  have h := rollAux_last entries hne hpos 0
  simpa [rollRandomReward] using h

/-- Witness for C4 at the concrete example pool. -/
theorem C4_witness :
    rollRandomReward poolABC (sumWeights poolABC) = poolABC.getLast? ∧
    rollRandomReward poolABC 1 = poolABC.head? ∧
    sumWeights poolABC = 100 ∧
    rollRandomReward poolABC 80 = some entryB ∧
    rollRandomReward poolABC 100 = some entryC ∧
    rollRandomReward poolABC 1 = some entryA :=
  C4_theorem poolABC (by decide) (by decide)

/-- Item table for the capacity boundary scenario: row 1 is a
non-stackable slot-occupying item, row 2 a stackable one. -/
def itemTableC6 : Nat → Option ItemBaseData := fun n =>
  if n = 1 then some ⟨true, true, 1⟩
  else if n = 2 then some ⟨false, true, 99⟩
  else none

/-- Environment for the capacity boundary scenario: capacity 5, slot
usage 5, item 2 already held (amount 3), item 1 not held, external
admissibility check always passing. -/
def envC6 : SimEnv :=
  ⟨itemTableC6, 5, 5, fun n => if n = 2 then 3 else 0, fun _ => true⟩

/-- C6: with `maxCapacity = 5` and current slot usage 5, simulating a
batch granting one unit of a non-stackable item that is not held is
rejected (the capacity check fails), while a batch granting +1 of a
stackable item already held (amount 3 > 0) is accepted because the
grant does not increase slot usage. -/
theorem C6_theorem :
    envC6.maxCapacity = 5 ∧ envC6.slotCount = 5 ∧
    envC6.userAmount 1 = 0 ∧ 0 < envC6.userAmount 2 ∧
    (envC6.itemTable 1).map (fun d => d.nonStackable) = some true ∧
    (envC6.itemTable 2).map (fun d => d.nonStackable) = some false ∧
    (simulateRewards envC6 [⟨EReward.item, 1, 1, ERewardSource.none⟩] [] true).1 = false ∧
    (simulateRewards envC6 [⟨EReward.item, 2, 1, ERewardSource.none⟩] [] true).1 = true := by
  decide

/-- The single low-tier entry used by the empty-pity counterexamples. -/
def lowEntry : GachaEntry := ⟨1, 0, ⟨EReward.item, 21, 1, ERewardSource.none⟩⟩

/-- Campaign for the C1 counterexample: special pity threshold 5 with
try count 1, normal pity disabled. -/
def cfgC1x : CampaignData := ⟨0, 5, 1⟩

/-- Pool for the C1 counterexample: only a tier-0 entry, so no entry
reaches pickup group 5. -/
def rdC1x : RewardData := ⟨[lowEntry], 1, [], [], 0⟩

/-- C1 counterexample: the special pity threshold is reached but no
pool entry has pickup group at least 5, and the draw does NOT degrade
to a normal roll: the recorded result is the `None` sentinel handler,
different from the normal roll outcome for the same draw value (which
would be the tier-0 item entry). -/
theorem C1_counterexample :
    drawStep cfgC1x rdC1x ⟨0, 0⟩ ⟨0, 1⟩ = (⟨0, 0⟩, ⟨DrawKind.specialPity, none⟩) ∧
    grantedHandler ⟨DrawKind.specialPity, none⟩ = noneHandler ∧
    rollRandomReward rdC1x.gachaRandoms 1 = some lowEntry ∧
    noneHandler ≠ lowEntry.reward := by
  decide

/-- C1 amended: when a pity path fires (threshold reached) but the
restricted candidate set is empty, the draw records the `None`
sentinel reward in the result list — it does not fall back to a normal
weighted roll, no error is surfaced, and the counters are still reset
as if the pity had succeeded. -/
theorem C1_theorem (cfg : CampaignData) (rd : RewardData) (st1 st2 : PityState)
    (r1 r2 : RandInput)
    (hsp : 0 < cfg.specialPickupGroup)
    (hs1 : cfg.specialTryCount ≤ ((st1.special + 1 : Nat) : Int))
    (hesp : pickupSubset rd.gachaRandoms cfg.specialPickupGroup = [])
    (hn : 0 < cfg.normalPickupGroup)
    (hs2 : ¬ cfg.specialTryCount ≤ ((st2.special + 1 : Nat) : Int))
    (hn2 : (10 : Int) ≤ ((st2.normal + 1 : Nat) : Int))
    (henp : pickupSubset rd.gachaRandoms cfg.normalPickupGroup = []) :
    drawStep cfg rd st1 r1 = (⟨0, 0⟩, ⟨DrawKind.specialPity, none⟩) ∧
    drawStep cfg rd st2 r2 = (⟨0, st2.special + 1⟩, ⟨DrawKind.normalPity, none⟩) ∧
    grantedHandler ⟨DrawKind.specialPity, none⟩ = noneHandler ∧
    grantedHandler ⟨DrawKind.normalPity, none⟩ = noneHandler := by
  have hadd1 : addPickupReward rd cfg.specialPickupGroup r1.pickIdx = none := by
    simp [addPickupReward, hesp]
  have hadd2 : addPickupReward rd cfg.normalPickupGroup r2.pickIdx = none := by
    simp [addPickupReward, henp]
  refine ⟨?_, ?_, rfl, rfl⟩
  · have hs1n : cfg.specialTryCount ≤ (st1.special : Int) + 1 := by exact_mod_cast hs1
    simp [drawStep, hsp, hs1n, hadd1]
  · have hs2n : ¬ cfg.specialTryCount ≤ (st2.special : Int) + 1 := by
      intro h; exact hs2 (by exact_mod_cast h)
    have hn2n : (10 : Int) ≤ (st2.normal : Int) + 1 := by exact_mod_cast hn2
    simp [drawStep, hs2n, hn, hn2n, hadd2]

/-- Campaign for the C1 witness: both pity tiers enabled with
thresholds below no entry. -/
def cfgC1w : CampaignData := ⟨1, 5, 90⟩

/-- Witness for C1 at the concrete configuration: special counter at
89 triggers the special path, normal counter at 9 triggers the normal
path; both restricted sets are empty. -/
theorem C1_witness :
    drawStep cfgC1w rdC1x ⟨0, 89⟩ ⟨0, 1⟩ = (⟨0, 0⟩, ⟨DrawKind.specialPity, none⟩) ∧
    drawStep cfgC1w rdC1x ⟨9, 0⟩ ⟨0, 1⟩ = (⟨0, 1⟩, ⟨DrawKind.normalPity, none⟩) ∧
    grantedHandler ⟨DrawKind.specialPity, none⟩ = noneHandler ∧
    grantedHandler ⟨DrawKind.normalPity, none⟩ = noneHandler :=
  C1_theorem cfgC1w rdC1x ⟨0, 89⟩ ⟨9, 0⟩ ⟨0, 1⟩ ⟨0, 1⟩ (by decide) (by decide)
    (by decide) (by decide) (by decide) (by decide) (by decide)

/-- Stackable slot-occupying item metadata used by the C8
counterexample. -/
def stackableMeta : ItemBaseData := ⟨false, true, 99⟩

/-- C8 counterexample: a stackable pending delta of +1 on an item whose
held amount is 5 does not flip the held amount across zero (5 is not 0
and 5 + 1 is positive), yet the baseline computation still adds one
slot (7 becomes 8) — the code applies the plus/minus one
unconditionally and never consults held amounts in the pending-delta
loop. -/
theorem C8_counterexample :
    (5 : Int) ≠ 0 ∧ 0 < (5 : Int) + 1 ∧
    pendingSlotDelta [⟨some stackableMeta, 1⟩] 7 = 8 ∧ (8 : Int) ≠ 7 := by
  decide

/-- C8 amended: the baseline equals the snapshot slot count plus, for
every pending delta, a contribution that is the signed amount for
non-stackable deltas (zero when the amount is zero) and an
unconditional +1 (positive amount) or -1 (otherwise) for stackable
deltas, regardless of any held amount. -/
theorem C8_theorem (ds : List NetItemDelta) (s : Int) :
    pendingSlotDelta ds s = s + (ds.map pendingContribution).sum := by
  induction ds generalizing s with
  | nil => simp [pendingSlotDelta]
  | cons d rest ih =>
    obtain ⟨od, a⟩ := d
    cases od with
    | none => simp [pendingSlotDelta, pendingContribution, ih]
    | some dd =>
      simp only [pendingSlotDelta, pendingContribution, List.map_cons, List.sum_cons, ih]
      split_ifs <;> ring

/-- C9: committing a stackable grant updates the single per-item row
to the previous amount plus the grant amount clamped into
`[0, maxStack]`; an amount that clamps to zero enqueues a row delete
instead of storing a zero; and removing an item down to zero also
enqueues deletion of the equip-state row when the item is equipped. -/
theorem C9_theorem (tbl : Nat → Option ItemBaseData) (equipped : Nat → Bool)
    (item : NetItem) (upd : Int) (d : ItemBaseData)
    (hlook : tbl item.itemID = some d) (hms : 0 ≤ d.maxStackAmount)
    (ham : 0 ≤ item.amount) (heq : equipped item.itemID = true) :
    onUpdateItemAmount tbl item upd =
      some (⟨item.itemID, item.itemUID, clampInt (item.amount + upd) 0 d.maxStackAmount⟩,
        if 0 < clampInt (item.amount + upd) 0 d.maxStackAmount then
          [SqlQuery.updateItemAmount (clampInt (item.amount + upd) 0 d.maxStackAmount)
            item.itemUID]
        else [SqlQuery.deleteItem item.itemUID]) ∧
    (0 ≤ clampInt (item.amount + upd) 0 d.maxStackAmount ∧
      clampInt (item.amount + upd) 0 d.maxStackAmount ≤ d.maxStackAmount) ∧
    removeInventoryItem tbl equipped (some item) item.amount =
      some (true, some ⟨item.itemID, item.itemUID, 0⟩,
        [SqlQuery.deleteItem item.itemUID, SqlQuery.deleteInventory item.itemUID,
         SqlQuery.deleteEquipment item.itemUID]) := by
  refine ⟨?_, ?_, ?_⟩
  · simp only [onUpdateItemAmount, hlook]
    split_ifs <;> rfl
  · constructor <;> (unfold clampInt; split_ifs <;> omega)
  · have hguard : ¬ (item.amount < 0 ∨ item.amount - item.amount < 0) := by omega
    have hclamp : clampInt (item.amount + item.amount * (-1)) 0 d.maxStackAmount = 0 := by
      unfold clampInt; split_ifs <;> omega
    simp only [removeInventoryItem, onUpdateItemAmount, hlook, hclamp, hguard, if_false,
      ite_false, if_neg hguard]
    norm_num [heq]

/-- C10: `RemoveInventoryItem` returns `false`, leaves the item
untouched and enqueues no query when the item is null, the removal
amount is negative, or the removal amount exceeds the held amount;
otherwise it returns `true` and decrements the held amount by the
removal amount (enqueuing the matching row update or delete queries). -/
theorem C10_theorem (tbl : Nat → Option ItemBaseData) (equipped : Nat → Bool)
    (it1 it2 it3 : NetItem) (rm1 rm2 rm3 : Int) (d : ItemBaseData)
    (h1 : rm1 < 0)
    (h2 : it2.amount - rm2 < 0)
    (h3a : 0 ≤ rm3) (h3b : rm3 ≤ it3.amount)
    (h3c : tbl it3.itemID = some d) (h3d : it3.amount ≤ d.maxStackAmount) :
    removeInventoryItem tbl equipped none rm1 = some (false, none, []) ∧
    removeInventoryItem tbl equipped (some it1) rm1 = some (false, some it1, []) ∧
    removeInventoryItem tbl equipped (some it2) rm2 = some (false, some it2, []) ∧
    removeInventoryItem tbl equipped (some it3) rm3 =
      some (true, some ⟨it3.itemID, it3.itemUID, it3.amount - rm3⟩,
        (if 0 < it3.amount - rm3 then
            [SqlQuery.updateItemAmount (it3.amount - rm3) it3.itemUID]
          else [SqlQuery.deleteItem it3.itemUID]) ++
        (if it3.amount - rm3 ≤ 0 then
            [SqlQuery.deleteInventory it3.itemUID] ++
            (if equipped it3.itemID then [SqlQuery.deleteEquipment it3.itemUID] else [])
          else [])) := by
  refine ⟨rfl, ?_, ?_, ?_⟩
  · simp only [removeInventoryItem]
    rw [if_pos (Or.inl h1)]
  · simp only [removeInventoryItem]
    rw [if_pos (Or.inr h2)]
  · have hguard : ¬ (rm3 < 0 ∨ it3.amount - rm3 < 0) := by omega
    have hclamp : clampInt (it3.amount + rm3 * (-1)) 0 d.maxStackAmount =
        it3.amount - rm3 := by
      unfold clampInt; split_ifs <;> omega
    simp only [removeInventoryItem, onUpdateItemAmount, h3c, hclamp, if_neg hguard]
    split_ifs <;> simp_all

/-- Item table for the C9 witness: every row stackable with max stack
10. -/
def tblC9w : Nat → Option ItemBaseData := fun _ => some ⟨false, true, 10⟩

/-- Witness for C9: updating a held amount 3 by +2 stores 5; removing
all 3 units deletes the row and the equip-state row. -/
theorem C9_witness :
    onUpdateItemAmount tblC9w ⟨1, 100, 3⟩ 2 =
      some (⟨1, 100, 5⟩, [SqlQuery.updateItemAmount 5 100]) ∧
    ((0 : Int) ≤ 5 ∧ (5 : Int) ≤ 10) ∧
    removeInventoryItem tblC9w (fun _ => true) (some ⟨1, 100, 3⟩) 3 =
      some (true, some ⟨1, 100, 0⟩,
        [SqlQuery.deleteItem 100, SqlQuery.deleteInventory 100,
         SqlQuery.deleteEquipment 100]) :=
  C9_theorem tblC9w (fun _ => true) ⟨1, 100, 3⟩ 2 ⟨false, true, 10⟩ rfl (by decide)
    (by decide) rfl

/-- Item table for the C10 witness: non-stackable rows with max stack
10. -/
def tblC10w : Nat → Option ItemBaseData := fun _ => some ⟨true, true, 10⟩

/-- Witness for C10: negative removal and over-removal are rejected
without mutation; removing 2 of 5 held units succeeds and stores 3. -/
theorem C10_witness :
    removeInventoryItem tblC10w (fun _ => false) none (-1) = some (false, none, []) ∧
    removeInventoryItem tblC10w (fun _ => false) (some ⟨1, 100, 5⟩) (-1) =
      some (false, some ⟨1, 100, 5⟩, []) ∧
    removeInventoryItem tblC10w (fun _ => false) (some ⟨1, 101, 2⟩) 3 =
      some (false, some ⟨1, 101, 2⟩, []) ∧
    removeInventoryItem tblC10w (fun _ => false) (some ⟨1, 102, 5⟩) 2 =
      some (true, some ⟨1, 102, 3⟩, [SqlQuery.updateItemAmount 3 102]) :=
  C10_theorem tblC10w (fun _ => false) ⟨1, 100, 5⟩ ⟨1, 101, 2⟩ ⟨1, 102, 5⟩ (-1) 3 2
    ⟨true, true, 10⟩ (by decide) (by decide) (by decide) (by decide) rfl (by decide)

theorem lookupCount_addCount (c : List (Nat × Int)) (k k2 : Nat) (v : Int) :
    lookupCount (addCount c k v) k2 = lookupCount c k2 + (if k2 = k then v else 0) := by
  induction c with
  | nil =>
    rcases eq_or_ne k k2 with h | h
    · subst h; simp [addCount, lookupCount]
    · simp [addCount, lookupCount, h, Ne.symm h]
  | cons p rest ih =>
    obtain ⟨k0, v0⟩ := p
    by_cases h0 : k0 = k
    · subst h0
      rcases eq_or_ne k0 k2 with h2 | h2
      · subst h2; simp [addCount, lookupCount]
      · simp [addCount, lookupCount, h2, Ne.symm h2]
    · rcases eq_or_ne k0 k2 with h2 | h2
      · subst h2
        simp [addCount, lookupCount, h0, Ne.symm h0]
      · simp [addCount, lookupCount, h0, h2, ih]

theorem classifyLoop_counts (tbl : Nat → Option ItemBaseData) :
    ∀ (rewards rem pass : List FRewardHandler) (counts : List (Nat × Int)) (k : Nat),
    lookupCount (classifyLoop tbl rewards rem pass counts).2.2 k =
      lookupCount counts k + stackableSum tbl k rewards := by
  intro rewards
  induction rewards with
  | nil =>
    intro rem pass counts k
    simp [classifyLoop, stackableSum]
  | cons h rest ih =>
    intro rem pass counts k
    by_cases ht : h.rewardType = EReward.item
    · cases htbl : tbl h.typeRowName with
      | none =>
        simp only [classifyLoop, ht, htbl, stackableSum, ne_eq, not_true_eq_false,
          if_false, ite_false]
        rw [ih]
        omega
      | some d =>
        by_cases hns : d.nonStackable
        · simp only [classifyLoop, ht, htbl, stackableSum, ne_eq, not_true_eq_false,
            if_false, ite_false, hns, if_true, ite_true]
          rw [ih]
          simp
        · have hnsf : d.nonStackable = false := Bool.not_eq_true _ |>.mp hns
          simp only [classifyLoop, ht, htbl, stackableSum, ne_eq, not_true_eq_false,
            if_false, ite_false, hnsf, Bool.false_eq_true]
          rw [ih, lookupCount_addCount]
          rcases eq_or_ne h.typeRowName k with hk | hk
          · simp [hk]; omega
          · simp [hk, Ne.symm hk]
    · simp only [classifyLoop, ht, stackableSum, ne_eq, not_false_eq_true, if_true,
        ite_true]
      rw [ih]
      cases htbl : tbl h.typeRowName with
      | none => simp
      | some d => simp [ht]

/-- C7: simulating the batch `{itemA:+3, itemA:-3, itemB:+1}` (item A
stackable, grants sharing one source) yields the same decision and the
same adjusted batch as simulating `{itemB:+1}` alone, for every
environment, pending-delta list and capacity flag; and in general the
merged count recorded for any key equals the sum of the signed amounts
of the stackable grants on that key. -/
theorem C7_theorem (env : SimEnv) (updated : List NetItemDelta) (bCheck : Bool)
    (s : ERewardSource) (nA nB : Nat) (dA : ItemBaseData)
    (rewards : List FRewardHandler) (k : Nat)
    (hAB : nA ≠ nB) (hA : env.itemTable nA = some dA)
    (hAstack : dA.nonStackable = false) :
    simulateRewards env
        [⟨EReward.item, nA, 3, s⟩, ⟨EReward.item, nA, -3, s⟩, ⟨EReward.item, nB, 1, s⟩]
        updated bCheck =
      simulateRewards env [⟨EReward.item, nB, 1, s⟩] updated bCheck ∧
    lookupCount (classifyLoop env.itemTable rewards [] [] []).2.2 k =
      stackableSum env.itemTable k rewards := by
  constructor
  · cases htbl : env.itemTable nB with
    | none =>
      simp [simulateRewards, classifyLoop, addCount, hA, hAstack, htbl, hAB]
    | some dB =>
      by_cases hns : dB.nonStackable
      · simp [simulateRewards, classifyLoop, addCount, hA, hAstack, htbl, hns, hAB]
      · simp [simulateRewards, classifyLoop, addCount, hA, hAstack, htbl, hns, hAB]
  · simpa [lookupCount] using classifyLoop_counts env.itemTable rewards [] [] [] k

/-- Environment for the C7 witness: rows 1 and 2 stackable, ample
capacity, always-passing admissibility check. -/
def envC7 : SimEnv :=
  ⟨fun n => if n = 1 ∨ n = 2 then some ⟨false, true, 99⟩ else none,
    0, 10, fun _ => 0, fun _ => true⟩

/-- Witness for C7 at a concrete stackable pair of items. -/
theorem C7_witness :
    simulateRewards envC7
        [⟨EReward.item, 1, 3, ERewardSource.none⟩, ⟨EReward.item, 1, -3, ERewardSource.none⟩,
         ⟨EReward.item, 2, 1, ERewardSource.none⟩] [] true =
      simulateRewards envC7 [⟨EReward.item, 2, 1, ERewardSource.none⟩] [] true ∧
    lookupCount (classifyLoop envC7.itemTable
        [⟨EReward.item, 1, 3, ERewardSource.none⟩] [] [] []).2.2 1 =
      stackableSum envC7.itemTable 1 [⟨EReward.item, 1, 3, ERewardSource.none⟩] :=
  C7_theorem envC7 [] true ERewardSource.none 1 2 ⟨false, true, 99⟩
    [⟨EReward.item, 1, 3, ERewardSource.none⟩] 1 (by decide) rfl rfl

/-- C5: on the cyclic composite definition (row 1 references itself),
the recursion of `BuildRewardData` never terminates: no recursion
budget suffices, for any random stream, starting accumulator or random
index. -/
theorem repeatFuel_one (tbl : Nat → Option RewardData) (f : Nat) (rd : Option RewardData)
    (rng : Nat → Int) (k : Nat) (acc : List FRewardHandler) :
    repeatFuel tbl (f + 1) rd 1 rng k acc =
      match buildFuel tbl f rd rng k acc with
      | none => none
      | some (acc1, k1) => repeatFuel tbl f rd 0 rng k1 acc1 := by
  conv_lhs => rw [repeatFuel.eq_def]

/-- C5: on the cyclic composite definition (row 1 references itself),
the recursion of `BuildRewardData` never terminates: no recursion
budget suffices, for any random stream, starting accumulator or random
index. -/
theorem C5_theorem (rng : Nat → Int) (fuel k : Nat) (acc : List FRewardHandler) :
    buildFuel cyclicTable fuel (cyclicTable 1) rng k acc = none := by
  induction fuel using Nat.strong_induction_on generalizing k acc with
  | _ fuel ih =>
    match fuel with
    | 0 => simp [buildFuel]
    | 1 =>
      show buildFuel cyclicTable (0 + 1) (some cyclicDefn) rng k acc = none
      simp [buildFuel, staticsFuel, cyclicDefn]
    | 2 =>
      show buildFuel cyclicTable (1 + 1) (some cyclicDefn) rng k acc = none
      simp [buildFuel, staticsFuel, addRewardFuel, cyclicDefn]
    | 3 =>
      show buildFuel cyclicTable (2 + 1) (some cyclicDefn) rng k acc = none
      simp [buildFuel, staticsFuel, addRewardFuel, repeatFuel, cyclicDefn]
    | (f4 + 4) =>
      have h4 := ih f4 (by omega) k acc
      show buildFuel cyclicTable (f4 + 4) (some cyclicDefn) rng k acc = none
      simp only [buildFuel, staticsFuel, addRewardFuel, cyclicDefn, Int.toNat_one,
        if_true, ite_true]
      rw [repeatFuel_one, h4]

theorem runDraws_cons (cfg : CampaignData) (rd : RewardData) (st : PityState)
    (r : RandInput) (rs : List RandInput) :
    runDraws cfg rd st (r :: rs) =
      ((runDraws cfg rd (drawStep cfg rd st r).1 rs).1,
       (drawStep cfg rd st r).2 :: (runDraws cfg rd (drawStep cfg rd st r).1 rs).2) := rfl

theorem runDraws_length (cfg : CampaignData) (rd : RewardData) :
    ∀ (rs : List RandInput) (st : PityState),
      (runDraws cfg rd st rs).2.length = rs.length := by
  intro rs
  induction rs with
  | nil => intro st; rfl
  | cons r rs ih => intro st; simp [runDraws_cons, ih]

theorem rollAux_mem : ∀ (l : List GachaEntry) (acc rn : Int) (e : GachaEntry),
    rollAux l acc rn = some e → e ∈ l := by
  intro l
  induction l with
  | nil => intro acc rn e h; simp [rollAux] at h
  | cons x rest ih =>
    intro acc rn e h
    simp only [rollAux] at h
    by_cases hc : rn ≤ acc + x.weight
    · rw [if_pos hc] at h
      injection h with h2
      subst h2
      exact List.mem_cons_self x rest
    · rw [if_neg hc] at h
      exact List.mem_cons_of_mem x (ih _ _ _ h)

theorem pickupSubset_mem (entries : List GachaEntry) (g : Int) (e : GachaEntry)
    (h : e ∈ pickupSubset entries g) : e ∈ entries ∧ g ≤ e.pickupGroup := by
  have h2 := List.mem_filter.mp h
  exact ⟨h2.1, by simpa using h2.2⟩

theorem pickupSubset_of_mem (entries : List GachaEntry) (g : Int) (e : GachaEntry)
    (he : e ∈ entries) (hg : g ≤ e.pickupGroup) : e ∈ pickupSubset entries g :=
  List.mem_filter.mpr ⟨he, by simpa using hg⟩

theorem pickupSubset_mono (entries : List GachaEntry) (g1 g2 : Int) (hg : g1 ≤ g2)
    (hne : pickupSubset entries g2 ≠ []) : pickupSubset entries g1 ≠ [] := by
  obtain ⟨e, he⟩ := List.exists_mem_of_ne_nil _ hne
  obtain ⟨hmem, hge⟩ := pickupSubset_mem entries g2 e he
  intro hcon
  have h2 : e ∈ pickupSubset entries g1 :=
    pickupSubset_of_mem _ _ _ hmem (le_trans hg hge)
  rw [hcon] at h2
  simp at h2

theorem addPickupReward_some (rd : RewardData) (g : Int) (idx : Nat)
    (h : pickupSubset rd.gachaRandoms g ≠ []) :
    ∃ e, addPickupReward rd g idx = some e ∧ e ∈ rd.gachaRandoms ∧ g ≤ e.pickupGroup := by
  have hlen : 0 < (pickupSubset rd.gachaRandoms g).length := List.length_pos.mpr h
  have hmod : idx % (pickupSubset rd.gachaRandoms g).length <
      (pickupSubset rd.gachaRandoms g).length := Nat.mod_lt _ hlen
  refine ⟨(pickupSubset rd.gachaRandoms g).get ⟨_, hmod⟩, ?_, ?_⟩
  · simp [addPickupReward, List.get?_eq_get hmod]
  · exact pickupSubset_mem _ _ _ (List.get_mem _ _ hmod)

theorem addPickupReward_mem (rd : RewardData) (g : Int) (idx : Nat) (e : GachaEntry)
    (h : addPickupReward rd g idx = some e) : e ∈ rd.gachaRandoms ∧ g ≤ e.pickupGroup := by
  unfold addPickupReward at h
  exact pickupSubset_mem _ _ _ (List.get?_mem h)

theorem drawStep_sel_mem (cfg : CampaignData) (rd : RewardData) (st : PityState)
    (r : RandInput) (e : GachaEntry)
    (h : ((drawStep cfg rd st r).2).sel = some e) : e ∈ rd.gachaRandoms := by
  simp only [drawStep, rollRandomReward] at h
  split_ifs at h <;> simp only at h <;>
    first
      | exact (addPickupReward_mem _ _ _ _ h).1
      | exact rollAux_mem _ _ _ _ h

theorem runDraws_sel_mem (cfg : CampaignData) (rd : RewardData) :
    ∀ (rs : List RandInput) (st : PityState) (o : DrawResult),
      o ∈ (runDraws cfg rd st rs).2 → ∀ e, o.sel = some e → e ∈ rd.gachaRandoms := by
  intro rs
  induction rs with
  | nil => intro st o ho; simp [runDraws] at ho
  | cons r rs ih =>
    intro st o ho e he
    rw [runDraws_cons] at ho
    rcases List.mem_cons.mp ho with h | h
    · exact drawStep_sel_mem cfg rd st r e (h ▸ he)
    · exact ih _ o h e he

theorem drawStep_special_nohit (cfg : CampaignData) (rd : RewardData) (st : PityState)
    (r : RandInput) (hsp : 0 < cfg.specialPickupGroup)
    (hsub : pickupSubset rd.gachaRandoms cfg.specialPickupGroup ≠ [])
    (hnohit : hitGE cfg.specialPickupGroup (drawStep cfg rd st r).2 = false) :
    ((drawStep cfg rd st r).1).special = st.special + 1 ∧
      (st.special : Int) + 1 < cfg.specialTryCount := by
  by_cases hs : cfg.specialTryCount ≤ (st.special : Int) + 1
  · exfalso
    obtain ⟨e, heq, hmem, hge⟩ := addPickupReward_some rd cfg.specialPickupGroup r.pickIdx hsub
    have hres : drawStep cfg rd st r =
        (⟨0, 0⟩, ⟨DrawKind.specialPity, addPickupReward rd cfg.specialPickupGroup r.pickIdx⟩) := by
      simp [drawStep, hsp, hs]
    rw [hres] at hnohit
    simp [hitGE, heq] at hnohit
    omega
  · refine ⟨?_, by omega⟩
    by_cases hnc : 0 < cfg.normalPickupGroup ∧ (10 : Int) ≤ (st.normal : Int) + 1
    · have hres : drawStep cfg rd st r = (⟨0, st.special + 1⟩,
          ⟨DrawKind.normalPity, addPickupReward rd cfg.normalPickupGroup r.pickIdx⟩) := by
        simp [drawStep, hs, hnc.1, hnc.2]
      rw [hres]
    · cases ho : rollRandomReward rd.gachaRandoms r.rollValue with
      | some e =>
        by_cases hg1 : cfg.specialPickupGroup ≤ e.pickupGroup
        · exfalso
          have hres : drawStep cfg rd st r = (⟨0, 0⟩, ⟨DrawKind.organic, some e⟩) := by
            simp [drawStep, hs, hnc, ho, hg1]
          rw [hres] at hnohit
          simp [hitGE] at hnohit
          omega
        · by_cases hg2 : cfg.normalPickupGroup ≤ e.pickupGroup
          · have hres : drawStep cfg rd st r =
                (⟨0, st.special + 1⟩, ⟨DrawKind.organic, some e⟩) := by
              simp [drawStep, hs, hnc, ho, hg1, hg2]
            rw [hres]
          · have hres : drawStep cfg rd st r =
                (⟨st.normal + 1, st.special + 1⟩, ⟨DrawKind.organic, some e⟩) := by
              simp [drawStep, hs, hnc, ho, hg1, hg2]
            rw [hres]
      | none =>
        have hg0 : ¬ cfg.specialPickupGroup ≤ (0 : Int) := by omega
        by_cases hng : cfg.normalPickupGroup ≤ (0 : Int)
        · have hres : drawStep cfg rd st r =
              (⟨0, st.special + 1⟩, ⟨DrawKind.organic, none⟩) := by
            simp [drawStep, hs, hnc, ho, hg0, hng]
          rw [hres]
        · have hres : drawStep cfg rd st r =
              (⟨st.normal + 1, st.special + 1⟩, ⟨DrawKind.organic, none⟩) := by
            simp [drawStep, hs, hnc, ho, hg0, hng]
          rw [hres]

theorem drawStep_normal_nohit (cfg : CampaignData) (rd : RewardData) (st : PityState)
    (r : RandInput) (hn : 0 < cfg.normalPickupGroup)
    (hns : cfg.normalPickupGroup ≤ cfg.specialPickupGroup)
    (hsub : pickupSubset rd.gachaRandoms cfg.specialPickupGroup ≠ [])
    (hnohit : hitGE cfg.normalPickupGroup (drawStep cfg rd st r).2 = false) :
    ((drawStep cfg rd st r).1).normal = st.normal + 1 ∧
      (st.normal : Int) + 1 < 10 := by
  have hsp : 0 < cfg.specialPickupGroup := lt_of_lt_of_le hn hns
  have hsubn : pickupSubset rd.gachaRandoms cfg.normalPickupGroup ≠ [] :=
    pickupSubset_mono _ _ _ hns hsub
  by_cases hs : cfg.specialTryCount ≤ (st.special : Int) + 1
  · exfalso
    obtain ⟨e, heq, hmem, hge⟩ := addPickupReward_some rd cfg.specialPickupGroup r.pickIdx hsub
    have hres : drawStep cfg rd st r =
        (⟨0, 0⟩, ⟨DrawKind.specialPity, addPickupReward rd cfg.specialPickupGroup r.pickIdx⟩) := by
      simp [drawStep, hsp, hs]
    rw [hres] at hnohit
    simp [hitGE, heq] at hnohit
    omega
  · by_cases hnc : (10 : Int) ≤ (st.normal : Int) + 1
    · exfalso
      obtain ⟨e, heq, hmem, hge⟩ :=
        addPickupReward_some rd cfg.normalPickupGroup r.pickIdx hsubn
      have hres : drawStep cfg rd st r = (⟨0, st.special + 1⟩,
          ⟨DrawKind.normalPity, addPickupReward rd cfg.normalPickupGroup r.pickIdx⟩) := by
        simp [drawStep, hs, hn, hnc]
      rw [hres] at hnohit
      simp [hitGE, heq] at hnohit
      omega
    · refine ⟨?_, by omega⟩
      have hnc2 : ¬ (0 < cfg.normalPickupGroup ∧ (10 : Int) ≤ (st.normal : Int) + 1) :=
        fun hc => hnc hc.2
      cases ho : rollRandomReward rd.gachaRandoms r.rollValue with
      | some e =>
        by_cases hg1 : cfg.specialPickupGroup ≤ e.pickupGroup
        · exfalso
          have hres : drawStep cfg rd st r = (⟨0, 0⟩, ⟨DrawKind.organic, some e⟩) := by
            simp [drawStep, hs, hnc2, ho, hg1]
          rw [hres] at hnohit
          simp [hitGE] at hnohit
          omega
        · by_cases hg2 : cfg.normalPickupGroup ≤ e.pickupGroup
          · exfalso
            have hres : drawStep cfg rd st r =
                (⟨0, st.special + 1⟩, ⟨DrawKind.organic, some e⟩) := by
              simp [drawStep, hs, hnc2, ho, hg1, hg2]
            rw [hres] at hnohit
            simp [hitGE] at hnohit
            omega
          · have hres : drawStep cfg rd st r =
                (⟨st.normal + 1, st.special + 1⟩, ⟨DrawKind.organic, some e⟩) := by
              simp [drawStep, hs, hnc2, ho, hg1, hg2]
            rw [hres]
      | none =>
        have hg0 : ¬ cfg.specialPickupGroup ≤ (0 : Int) := by omega
        have hng : ¬ cfg.normalPickupGroup ≤ (0 : Int) := by omega
        have hres : drawStep cfg rd st r =
            (⟨st.normal + 1, st.special + 1⟩, ⟨DrawKind.organic, none⟩) := by
          simp [drawStep, hs, hnc2, ho, hg0, hng]
        rw [hres]

theorem special_prefix_count (cfg : CampaignData) (rd : RewardData)
    (hsp : 0 < cfg.specialPickupGroup)
    (hsub : pickupSubset rd.gachaRandoms cfg.specialPickupGroup ≠ []) :
    ∀ (rs : List RandInput) (st : PityState) (m : Nat), m ≤ rs.length → 0 < m →
      (∀ (k : Nat) (hk : k < (runDraws cfg rd st rs).2.length), k < m →
        hitGE cfg.specialPickupGroup ((runDraws cfg rd st rs).2.get ⟨k, hk⟩) = false) →
      (st.special : Int) + m < cfg.specialTryCount := by
  intro rs
  induction rs with
  | nil =>
    intro st m hm hm0 _
    simp at hm
    omega
  | cons r rs ih =>
    intro st m hm hm0 hno
    have hlen : (runDraws cfg rd st (r :: rs)).2.length = rs.length + 1 := by
      rw [runDraws_length]; rfl
    have h0 : hitGE cfg.specialPickupGroup (drawStep cfg rd st r).2 = false := by
      have h1 := hno 0 (by omega) hm0
      simpa [runDraws_cons] using h1
    obtain ⟨hstep, hbound⟩ := drawStep_special_nohit cfg rd st r hsp hsub h0
    rcases Nat.lt_or_ge 1 m with hm1 | hm1
    · have htail := ih (drawStep cfg rd st r).1 (m - 1)
        (by simp at hm; omega) (by omega) ?_
      · rw [hstep] at htail
        push_cast at htail
        omega
      · intro k hk hkm
        have hk1 : k + 1 < (runDraws cfg rd st (r :: rs)).2.length := by
          rw [runDraws_length] at hk ⊢
          simpa using Nat.succ_lt_succ hk
        have h2 := hno (k + 1) hk1 (by omega)
        simpa [runDraws_cons] using h2
    · have hm2 : m = 1 := by omega
      subst hm2
      push_cast
      omega

theorem normal_prefix_count (cfg : CampaignData) (rd : RewardData)
    (hn : 0 < cfg.normalPickupGroup)
    (hns : cfg.normalPickupGroup ≤ cfg.specialPickupGroup)
    (hsub : pickupSubset rd.gachaRandoms cfg.specialPickupGroup ≠ []) :
    ∀ (rs : List RandInput) (st : PityState) (m : Nat), m ≤ rs.length → 0 < m →
      (∀ (k : Nat) (hk : k < (runDraws cfg rd st rs).2.length), k < m →
        hitGE cfg.normalPickupGroup ((runDraws cfg rd st rs).2.get ⟨k, hk⟩) = false) →
      (st.normal : Int) + m < 10 := by
  intro rs
  induction rs with
  | nil =>
    intro st m hm hm0 _
    simp at hm
    omega
  | cons r rs ih =>
    intro st m hm hm0 hno
    have h0 : hitGE cfg.normalPickupGroup (drawStep cfg rd st r).2 = false := by
      have h1 := hno 0 (by rw [runDraws_length]; simp) hm0
      simpa [runDraws_cons] using h1
    obtain ⟨hstep, hbound⟩ := drawStep_normal_nohit cfg rd st r hn hns hsub h0
    rcases Nat.lt_or_ge 1 m with hm1 | hm1
    · have htail := ih (drawStep cfg rd st r).1 (m - 1)
        (by simp at hm; omega) (by omega) ?_
      · rw [hstep] at htail
        push_cast at htail
        omega
      · intro k hk hkm
        have hk1 : k + 1 < (runDraws cfg rd st (r :: rs)).2.length := by
          rw [runDraws_length] at hk ⊢
          simpa using Nat.succ_lt_succ hk
        have h2 := hno (k + 1) hk1 (by omega)
        simpa [runDraws_cons] using h2
    · have hm2 : m = 1 := by omega
      subst hm2
      push_cast
      omega

theorem special_gap (cfg : CampaignData) (rd : RewardData)
    (hsp : 0 < cfg.specialPickupGroup)
    (hsub : pickupSubset rd.gachaRandoms cfg.specialPickupGroup ≠ [])
    (htc : 1 ≤ cfg.specialTryCount) :
    ∀ (rs : List RandInput) (st : PityState) (i j : Nat),
      i < j →
      ∀ (hj : j < (runDraws cfg rd st rs).2.length),
      (∀ (k : Nat) (hk : k < (runDraws cfg rd st rs).2.length), i < k → k < j →
        hitGE cfg.specialPickupGroup ((runDraws cfg rd st rs).2.get ⟨k, hk⟩) = false) →
      (j : Int) - i ≤ cfg.specialTryCount := by
  intro rs
  induction rs with
  | nil =>
    intro st i j hij hj
    rw [runDraws_length] at hj
    simp at hj
  | cons r rs ih =>
    intro st i j hij hj hbet
    have hlen : (runDraws cfg rd st (r :: rs)).2.length = rs.length + 1 := by
      rw [runDraws_length]; rfl
    cases i with
    | succ i2 =>
      have hj2 : j - 1 < (runDraws cfg rd (drawStep cfg rd st r).1 rs).2.length := by
        rw [runDraws_length]
        rw [hlen] at hj
        omega
      have hg := ih (drawStep cfg rd st r).1 i2 (j - 1) (by omega) hj2 ?_
      · push_cast at hg ⊢
        omega
      · intro k hk h1 h2
        have hk1 : k + 1 < (runDraws cfg rd st (r :: rs)).2.length := by
          rw [runDraws_length] at hk
          rw [hlen]
          omega
        have h3 := hbet (k + 1) hk1 (by omega) (by omega)
        simpa [runDraws_cons] using h3
    | zero =>
      rcases Nat.lt_or_ge 1 j with hj1 | hj1
      · have hpc := special_prefix_count cfg rd hsp hsub rs (drawStep cfg rd st r).1
          (j - 1) (by rw [hlen] at hj; omega) (by omega) ?_
        · push_cast at hpc ⊢
          omega
        · intro k hk hkm
          have hk1 : k + 1 < (runDraws cfg rd st (r :: rs)).2.length := by
            rw [runDraws_length] at hk
            rw [hlen]
            omega
          have h3 := hbet (k + 1) hk1 (by omega) (by omega)
          simpa [runDraws_cons] using h3
      · have hj2 : j = 1 := by omega
        subst hj2
        push_cast
        omega

/-- C2: whenever two consecutive special-tier hits occur at draws `i`
and `j` of a run (special pity enabled, try count at least one), the
gap `j - i` never exceeds `specialTryCount`, regardless of normal-pity
activity; and on a draw where both pity thresholds are reached
simultaneously, the special path fires and the normal path does not
(the step result is exactly the special branch's). -/
theorem C2_theorem (cfg : CampaignData) (rd : RewardData) (st0 st2 : PityState)
    (rs : List RandInput) (r2 : RandInput) (i j : Nat)
    (hsp : 0 < cfg.specialPickupGroup)
    (htc : 1 ≤ cfg.specialTryCount)
    (hij : i < j)
    (hilen : i < (runDraws cfg rd st0 rs).2.length)
    (hj : j < (runDraws cfg rd st0 rs).2.length)
    (hi : hitGE cfg.specialPickupGroup
      ((runDraws cfg rd st0 rs).2.get ⟨i, hilen⟩) = true)
    (hjh : hitGE cfg.specialPickupGroup
      ((runDraws cfg rd st0 rs).2.get ⟨j, hj⟩) = true)
    (hbet : ∀ (k : Nat) (hk : k < (runDraws cfg rd st0 rs).2.length), i < k → k < j →
      hitGE cfg.specialPickupGroup ((runDraws cfg rd st0 rs).2.get ⟨k, hk⟩) = false)
    (hn2 : 0 < cfg.normalPickupGroup)
    (hcnt2 : (10 : Int) ≤ (st2.normal : Int) + 1)
    (hscnt2 : cfg.specialTryCount ≤ (st2.special : Int) + 1) :
    (j : Int) - (i : Int) ≤ cfg.specialTryCount ∧
    drawStep cfg rd st2 r2 =
      (⟨0, 0⟩, ⟨DrawKind.specialPity,
        addPickupReward rd cfg.specialPickupGroup r2.pickIdx⟩) := by
  constructor
  · rcases hsel : ((runDraws cfg rd st0 rs).2.get ⟨i, hilen⟩).sel with _ | e
    · rw [hitGE, hsel] at hi
      simp at hi
    · have hge : cfg.specialPickupGroup ≤ e.pickupGroup := by
        rw [hitGE, hsel] at hi
        simpa using hi
      have hmem : e ∈ rd.gachaRandoms :=
        runDraws_sel_mem cfg rd rs st0 _ (List.get_mem _ _ hilen) e hsel
      have hsub : pickupSubset rd.gachaRandoms cfg.specialPickupGroup ≠ [] := by
        intro hcon
        have h2 := pickupSubset_of_mem rd.gachaRandoms cfg.specialPickupGroup e hmem hge
        rw [hcon] at h2
        simp at h2
      exact special_gap cfg rd hsp hsub htc rs st0 i j hij hj hbet
  · simp [drawStep, hsp, hscnt2]

/-- Campaign for the C2 witness: special tier 1 with try count 1,
normal tier 1. -/
def cfgC2w : CampaignData := ⟨1, 1, 1⟩

/-- Pool for the C2 witness: a single tier-1 entry. -/
def rdC2w : RewardData := ⟨[⟨1, 1, ⟨EReward.item, 41, 1, ERewardSource.none⟩⟩], 1, [], [], 0⟩

/-- Witness for C2 on a concrete 2-draw trace with special hits at
draws 0 and 1, plus the simultaneous-trigger state (9, 0). -/
theorem C2_witness :
    ((1 : Nat) : Int) - ((0 : Nat) : Int) ≤ cfgC2w.specialTryCount ∧
    drawStep cfgC2w rdC2w ⟨9, 0⟩ ⟨0, 1⟩ =
      (⟨0, 0⟩, ⟨DrawKind.specialPity,
        addPickupReward rdC2w cfgC2w.specialPickupGroup 0⟩) :=
  C2_theorem cfgC2w rdC2w ⟨0, 0⟩ ⟨9, 0⟩ [⟨0, 1⟩, ⟨0, 1⟩] ⟨0, 1⟩ 0 1
    (by decide) (by decide) (by decide) (by decide) (by decide) (by decide) (by decide)
    (fun k hk h1 h2 => by omega)
    (by decide) (by decide) (by decide)

theorem normal_window (cfg : CampaignData) (rd : RewardData)
    (hn : 0 < cfg.normalPickupGroup)
    (hns : cfg.normalPickupGroup ≤ cfg.specialPickupGroup)
    (hsub : pickupSubset rd.gachaRandoms cfg.specialPickupGroup ≠ []) :
    ∀ (t : Nat) (rs : List RandInput) (st : PityState),
      t + 10 ≤ (runDraws cfg rd st rs).2.length →
      ∃ k, t ≤ k ∧ k < t + 10 ∧ ∃ hk : k < (runDraws cfg rd st rs).2.length,
        hitGE cfg.normalPickupGroup ((runDraws cfg rd st rs).2.get ⟨k, hk⟩) = true := by
  intro t
  induction t with
  | zero =>
    intro rs st hlen
    by_contra hcon
    push_neg at hcon
    have hno : ∀ (k : Nat) (hk : k < (runDraws cfg rd st rs).2.length), k < 10 →
        hitGE cfg.normalPickupGroup ((runDraws cfg rd st rs).2.get ⟨k, hk⟩) = false := by
      intro k hk hk10
      have h1 := hcon k (Nat.zero_le k) (by omega) hk
      simpa using h1
    have h2 := normal_prefix_count cfg rd hn hns hsub rs st 10
      (by rw [runDraws_length] at hlen; omega) (by omega) hno
    push_cast at h2
    omega
  | succ t2 ih =>
    intro rs st hlen
    cases rs with
    | nil =>
      rw [runDraws_length] at hlen
      simp at hlen
    | cons r rs2 =>
      have hlen1 : (runDraws cfg rd st (r :: rs2)).2.length = rs2.length + 1 := by
        rw [runDraws_length]; rfl
      have hlen2 : t2 + 10 ≤ (runDraws cfg rd (drawStep cfg rd st r).1 rs2).2.length := by
        rw [runDraws_length]
        rw [hlen1] at hlen
        omega
      obtain ⟨k, hk1, hk2, hk3, hk4⟩ := ih rs2 (drawStep cfg rd st r).1 hlen2
      have hklen : k + 1 < (runDraws cfg rd st (r :: rs2)).2.length := by
        rw [runDraws_length] at hk3
        rw [hlen1]
        omega
      refine ⟨k + 1, by omega, by omega, hklen, ?_⟩
      simpa [runDraws_cons] using hk4

/-- C3 (amended): with normal pity enabled, the special threshold at
least the normal one and the pool containing an entry of the special
tier, every window of 10 consecutive draws of a run whose organic
draws never reach the normal tier contains at least one draw granting
pickup group at least the normal threshold. -/
theorem C3_theorem (cfg : CampaignData) (rd : RewardData) (st0 : PityState)
    (rs : List RandInput) (t : Nat)
    (hn : 0 < cfg.normalPickupGroup)
    (hns : cfg.normalPickupGroup ≤ cfg.specialPickupGroup)
    (hsub : pickupSubset rd.gachaRandoms cfg.specialPickupGroup ≠ [])
    (horg : ∀ o ∈ (runDraws cfg rd st0 rs).2, o.kind = DrawKind.organic →
      hitGE cfg.normalPickupGroup o = false)
    (hwin : t + 10 ≤ (runDraws cfg rd st0 rs).2.length) :
    ∃ k, t ≤ k ∧ k < t + 10 ∧ ∃ hk : k < (runDraws cfg rd st0 rs).2.length,
      hitGE cfg.normalPickupGroup ((runDraws cfg rd st0 rs).2.get ⟨k, hk⟩) = true :=
  normal_window cfg rd hn hns hsub t rs st0 hwin

/-- Campaign for the C3 counterexample: normal threshold 1, special
pity disabled (group 0). -/
def cfgC3x : CampaignData := ⟨1, 0, 90⟩

/-- Pool for the C3 counterexample: one tier-0 entry of weight 1. -/
def rdC3x : RewardData := ⟨[⟨1, 0, ⟨EReward.item, 31, 1, ERewardSource.none⟩⟩], 1, [], [], 0⟩

/-- C3 counterexample: normal pity is enabled and no organic draw
reaches the normal tier, yet a full window of 10 consecutive draws
contains no reward of pickup group at least the threshold — with the
special group configured as 0 (disabled), every organic tier-0 draw
passes the `PickupGroup >= SpecialPickupGroup` comparison and resets
the normal counter, so the 10-draw cadence never fires. -/
theorem C3_counterexample :
    0 < cfgC3x.normalPickupGroup ∧
    (runDraws cfgC3x rdC3x ⟨0, 0⟩ (List.replicate 10 ⟨0, 1⟩)).2.length = 10 ∧
    (∀ o ∈ (runDraws cfgC3x rdC3x ⟨0, 0⟩ (List.replicate 10 ⟨0, 1⟩)).2,
      o.kind = DrawKind.organic → hitGE cfgC3x.normalPickupGroup o = false) ∧
    (∀ o ∈ (runDraws cfgC3x rdC3x ⟨0, 0⟩ (List.replicate 10 ⟨0, 1⟩)).2,
      hitGE cfgC3x.normalPickupGroup o = false) := by
  decide

/-- Campaign for the C3 witness: normal tier 1, special tier 5, try
count 100. -/
def cfgC3w : CampaignData := ⟨1, 5, 100⟩

/-- Pool for the C3 witness: a tier-0 entry of weight 1 (always rolled
organically) and a tier-5 entry of weight 0 (reachable only through
pity). -/
def rdC3w : RewardData :=
  ⟨[⟨1, 0, ⟨EReward.item, 31, 1, ERewardSource.none⟩⟩,
    ⟨0, 5, ⟨EReward.item, 32, 1, ERewardSource.none⟩⟩], 1, [], [], 0⟩

/-- Witness for C3 on a concrete 10-draw trace: the guaranteed hit
occurs at draw 9 (the 10th draw) via the normal pity cadence. -/
theorem C3_witness :
    ∃ k, 0 ≤ k ∧ k < 0 + 10 ∧
      ∃ hk : k < (runDraws cfgC3w rdC3w ⟨0, 0⟩ (List.replicate 10 ⟨0, 1⟩)).2.length,
        hitGE cfgC3w.normalPickupGroup
          ((runDraws cfgC3w rdC3w ⟨0, 0⟩ (List.replicate 10 ⟨0, 1⟩)).2.get ⟨k, hk⟩) = true :=
  C3_theorem cfgC3w rdC3w ⟨0, 0⟩ (List.replicate 10 ⟨0, 1⟩) 0 (by decide) (by decide)
    (by decide) (by decide) (by decide)
